import Mathlib

/-!
Verification of the rail-network model and train traffic system of an
isometric city-builder.

The definitions below are a shallow embedding of the TypeScript sources
(`railSystem.ts` and the train-system module): grids are lists of rows of
tiles, JavaScript numbers that hold tile coordinates are `Int`, fractional
quantities (progress, speeds, timers) are `Rat`, and functions translate
the source line by line.  Unbounded `while` loops are embedded as
fuel-indexed recursions whose fuel is proved sufficient.
-/

namespace IsoCity

/-- Building types relevant to the rail subsystem.  The source enumerates
many more (house, hospital, ...); every one of them behaves like `other`
in all rail functions, which only compare against the four special tags. -/
inductive BuildingType where
  | rail
  | rail_station
  | road
  | empty
  | grass
  | other
deriving DecidableEq, Repr

/-- The `building` record stored on a tile (only its `type` field is read
by the rail subsystem). -/
structure Building where
  type : BuildingType
deriving DecidableEq, Repr

/-- A grid cell: `building.type` plus the rail-overlay flag (meaningful on
road tiles). -/
structure Tile where
  building : Building
  hasRailOverlay : Bool
deriving DecidableEq, Repr

/-- The default tile used for reads outside the backing lists (the source
would read `undefined` there; all in-bounds accesses of a well-formed
square grid never hit this default). -/
def defaultTile : Tile := ⟨⟨BuildingType.grass⟩, false⟩

/-- A grid is a list of rows; the source indexes `grid[y][x]`. -/
def Grid : Type := List (List Tile)

/-- Source `grid[y][x]` (callers bounds-check first, as in the source). -/
def tileAt (grid : Grid) (x y : ℤ) : Tile :=
  ((grid.getD y.toNat []).getD x.toNat defaultTile)

/-- Source `isRailTile` from `railSystem.ts`: in bounds and a pure rail tile or a
road tile with rail overlay. -/
def isRailTile (grid : Grid) (gridSize : ℕ) (x y : ℤ) : Bool :=
  if x < 0 ∨ y < 0 ∨ (gridSize : ℤ) ≤ x ∨ (gridSize : ℤ) ≤ y then false
  else
    let tile := tileAt grid x y
    tile.building.type = BuildingType.rail ∨
      (tile.building.type = BuildingType.road ∧ tile.hasRailOverlay = true)

/-- Source `isRailStationTile` from `railSystem.ts`: the tile is a `rail_station`
origin, or an `empty` tile whose west, north or north-west neighbor is the
`rail_station` origin of a 2x2 footprint. -/
def isRailStationTile (grid : Grid) (gridSize : ℕ) (x y : ℤ) : Bool :=
  if x < 0 ∨ y < 0 ∨ (gridSize : ℤ) ≤ x ∨ (gridSize : ℤ) ≤ y then false
  else
    let tile := tileAt grid x y
    if tile.building.type = BuildingType.rail_station then true
    else if tile.building.type = BuildingType.empty then
      (0 < x ∧ (tileAt grid (x - 1) y).building.type = BuildingType.rail_station) ∨
      (0 < y ∧ (tileAt grid x (y - 1)).building.type = BuildingType.rail_station) ∨
      (0 < x ∧ 0 < y ∧ (tileAt grid (x - 1) (y - 1)).building.type = BuildingType.rail_station)
    else false

/-- Source `hasRailAtPosition` from `railSystem.ts`: rail tile, any rail-station
footprint tile, or road with rail overlay. -/
def hasRailAtPosition (grid : Grid) (gridSize : ℕ) (x y : ℤ) : Bool :=
  if x < 0 ∨ y < 0 ∨ (gridSize : ℤ) ≤ x ∨ (gridSize : ℤ) ≤ y then false
  else
    let tile := tileAt grid x y
    tile.building.type = BuildingType.rail ∨
      isRailStationTile grid gridSize x y = true ∨
      (tile.building.type = BuildingType.road ∧ tile.hasRailOverlay = true)

/-- Four independent rail-connection booleans (derived, not stored). -/
structure RailConnection where
  north : Bool
  east : Bool
  south : Bool
  west : Bool
deriving DecidableEq, Repr

/-- Source `getAdjacentRail`: rail occupancy of the four neighbors, with the
source's axis convention north = x-1, east = y-1, south = x+1, west = y+1. -/
def getAdjacentRail (grid : Grid) (gridSize : ℕ) (x y : ℤ) : RailConnection :=
  { north := hasRailAtPosition grid gridSize (x - 1) y
    east := hasRailAtPosition grid gridSize x (y - 1)
    south := hasRailAtPosition grid gridSize (x + 1) y
    west := hasRailAtPosition grid gridSize x (y + 1) }

/-- Source `getAdjacentRailForOverlay` from `railSystem.ts`, with its local
`hasRailAt` closure translated inline. -/
def getAdjacentRailForOverlay (grid : Grid) (gridSize : ℕ) (x y : ℤ) : RailConnection :=
  let hasRailAt : ℤ → ℤ → Bool := fun checkX checkY =>
    if checkX < 0 ∨ checkY < 0 ∨ (gridSize : ℤ) ≤ checkX ∨ (gridSize : ℤ) ≤ checkY then false
    else
      let tile := tileAt grid checkX checkY
      tile.building.type = BuildingType.rail ∨
        isRailStationTile grid gridSize checkX checkY = true ∨
        (tile.building.type = BuildingType.road ∧ tile.hasRailOverlay = true)
  { north := hasRailAt (x - 1) y
    east := hasRailAt x (y - 1)
    south := hasRailAt (x + 1) y
    west := hasRailAt x (y + 1) }

/-- The sixteen track-shape variants. -/
inductive TrackType where
  | straight_ns
  | straight_ew
  | curve_ne
  | curve_nw
  | curve_se
  | curve_sw
  | junction_t_n
  | junction_t_e
  | junction_t_s
  | junction_t_w
  | junction_cross
  | terminus_n
  | terminus_e
  | terminus_s
  | terminus_w
  | single
deriving DecidableEq, Repr

/-- Source `getTrackType` from `railSystem.ts`, translated check by check (the
sequential `return`s become nested conditionals). -/
def getTrackType (c : RailConnection) : TrackType :=
  let count := [c.north, c.east, c.south, c.west].countP id
  if count = 4 then .junction_cross
  else if count = 3 ∧ c.north = false then .junction_t_n
  else if count = 3 ∧ c.east = false then .junction_t_e
  else if count = 3 ∧ c.south = false then .junction_t_s
  else if count = 3 ∧ c.west = false then .junction_t_w
  else if c.north ∧ c.south ∧ c.east = false ∧ c.west = false then .straight_ns
  else if c.east ∧ c.west ∧ c.north = false ∧ c.south = false then .straight_ew
  else if c.north ∧ c.east ∧ c.south = false ∧ c.west = false then .curve_ne
  else if c.north ∧ c.west ∧ c.south = false ∧ c.east = false then .curve_nw
  else if c.south ∧ c.east ∧ c.north = false ∧ c.west = false then .curve_se
  else if c.south ∧ c.west ∧ c.north = false ∧ c.east = false then .curve_sw
  else if count = 1 ∧ c.north then .terminus_s
  else if count = 1 ∧ c.east then .terminus_w
  else if count = 1 ∧ c.south then .terminus_n
  else if count = 1 ∧ c.west then .terminus_e
  else .single

/-- The specification's decision table for the track classifier, written
from the spec's words: dispatch on the connection count; 3-counts are
named for the missing direction, 1-counts for the direction opposite the
single live connection. -/
def trackTypeSpecTable (c : RailConnection) : TrackType :=
  let count := (if c.north then 1 else 0) + (if c.east then 1 else 0) +
    (if c.south then 1 else 0) + (if c.west then 1 else 0)
  match count with
  | 4 => .junction_cross
  | 3 =>
    if ¬c.north then .junction_t_n
    else if ¬c.east then .junction_t_e
    else if ¬c.south then .junction_t_s
    else .junction_t_w
  | 2 =>
    if c.north ∧ c.south then .straight_ns
    else if c.east ∧ c.west then .straight_ew
    else if c.north ∧ c.east then .curve_ne
    else if c.north ∧ c.west then .curve_nw
    else if c.south ∧ c.east then .curve_se
    else .curve_sw
  | 1 =>
    if c.north then .terminus_s
    else if c.east then .terminus_w
    else if c.south then .terminus_n
    else .terminus_e
  | _ => .single

/-- C1: for every RailConnection (all 16 boolean 4-tuples), `getTrackType`
returns exactly the variant given by the specification's decision table:
4 connections yield `junction_cross`, 3 yield the `junction_t_*` named for
the missing direction, 2 opposite yield the straights, 2 adjacent the
matching curve, exactly 1 yields the `terminus_*` facing the direction
opposite that connection, and 0 yield `single`. -/
theorem getTrackType_matches_decision_table :
    ∀ n e s w : Bool,
      getTrackType ⟨n, e, s, w⟩ = trackTypeSpecTable ⟨n, e, s, w⟩ := by
  decide

/-- Shorthand tiles used by the concrete test grids. -/
def grassTile : Tile := ⟨⟨BuildingType.grass⟩, false⟩

/-- An `empty` tile (candidate member of a station footprint). -/
def emptyTile : Tile := ⟨⟨BuildingType.empty⟩, false⟩

/-- A pure rail tile. -/
def railTile : Tile := ⟨⟨BuildingType.rail⟩, false⟩

/-- The 2x2-station origin tile. -/
def stationTile : Tile := ⟨⟨BuildingType.rail_station⟩, false⟩

/-- Concrete 8x8 grid for the station-footprint scenario: a `rail_station`
origin at (3,3), `empty` footprint tiles at (4,3), (3,4), (4,4), plus
`empty` tiles at (2,3) and (5,4) that are not part of any footprint. -/
def stationGrid : Grid :=
  [ [grassTile, grassTile, grassTile, grassTile, grassTile, grassTile, grassTile, grassTile],
    [grassTile, grassTile, grassTile, grassTile, grassTile, grassTile, grassTile, grassTile],
    [grassTile, grassTile, grassTile, grassTile, grassTile, grassTile, grassTile, grassTile],
    [grassTile, grassTile, emptyTile, stationTile, emptyTile, grassTile, grassTile, grassTile],
    [grassTile, grassTile, grassTile, emptyTile, emptyTile, emptyTile, grassTile, grassTile],
    [grassTile, grassTile, grassTile, grassTile, grassTile, grassTile, grassTile, grassTile],
    [grassTile, grassTile, grassTile, grassTile, grassTile, grassTile, grassTile, grassTile],
    [grassTile, grassTile, grassTile, grassTile, grassTile, grassTile, grassTile, grassTile] ]

/-- C8: on the 2x2 station grid with origin (3,3) and empty footprint
tiles (4,3), (3,4), (4,4), `isRailStationTile` accepts all four footprint
tiles (the empty ones through their west / north / north-west neighbor
checks) and rejects the nearby empty tiles (2,3) and (5,4). -/
theorem isRailStationTile_station_footprint_scenario :
    isRailStationTile stationGrid 8 3 3 = true ∧
    isRailStationTile stationGrid 8 4 3 = true ∧
    isRailStationTile stationGrid 8 3 4 = true ∧
    isRailStationTile stationGrid 8 4 4 = true ∧
    isRailStationTile stationGrid 8 2 3 = false ∧
    isRailStationTile stationGrid 8 5 4 = false := by
  decide

/-- C4 counterexample: there is no grid and coordinate at which the
overlay oracle and the base oracle disagree — the claimed asymmetry does
not exist, because `hasRailAtPosition` already recognizes `rail_station`
tiles through `isRailStationTile`. -/
theorem overlay_oracle_never_differs :
    ¬ ∃ (grid : Grid) (gridSize : ℕ) (x y : ℤ),
        getAdjacentRailForOverlay grid gridSize x y ≠ getAdjacentRail grid gridSize x y := by
  rintro ⟨grid, gridSize, x, y, h⟩
  exact h rfl

/-- C4 (amended): `getAdjacentRailForOverlay` is extensionally equal to
`getAdjacentRail` on every grid and coordinate; both treat `rail_station`
neighbors as rail-occupied, since the base oracle's `hasRailAtPosition`
includes the `isRailStationTile` check that directly recognizes
`rail_station` tiles. -/
theorem getAdjacentRailForOverlay_eq_getAdjacentRail :
    ∀ (grid : Grid) (gridSize : ℕ) (x y : ℤ),
      getAdjacentRailForOverlay grid gridSize x y = getAdjacentRail grid gridSize x y := by
  intro grid gridSize x y
  rfl

/-- The edge condition of the BFS (`!isRailTile && !isRailStationTile →
continue`): a cell can be entered iff it carries rail or a station. -/
def railOrStation (grid : Grid) (gridSize : ℕ) (x y : ℤ) : Bool :=
  isRailTile grid gridSize x y || isRailStationTile grid gridSize x y

/-- A BFS queue entry: cell coordinates plus the path used to reach it. -/
structure BfsEntry where
  x : ℤ
  y : ℤ
  path : List (ℤ × ℤ)
deriving DecidableEq, Repr

/-- The cell of a queue entry. -/
def BfsEntry.cell (e : BfsEntry) : ℤ × ℤ := (e.x, e.y)

/-- The fixed neighbor exploration order of `findPathOnRails`:
north (x-1), east (y-1), south (x+1), west (y+1). -/
def bfsDirections : List (ℤ × ℤ) := [(-1, 0), (0, -1), (1, 0), (0, 1)]

/-- The inner `for` loop of the BFS: try each direction in order, skipping
out-of-bounds, visited, and non-rail cells; otherwise mark the neighbor
visited and emit a queue entry (in exploration order). -/
def bfsExpand (grid : Grid) (gridSize : ℕ) (cur : BfsEntry) :
    List (ℤ × ℤ) → Finset (ℤ × ℤ) → Finset (ℤ × ℤ) × List BfsEntry
  | [], visited => (visited, [])
  | d :: ds, visited =>
    let nx := cur.x + d.1
    let ny := cur.y + d.2
    if nx < 0 ∨ ny < 0 ∨ (gridSize : ℤ) ≤ nx ∨ (gridSize : ℤ) ≤ ny then
      bfsExpand grid gridSize cur ds visited
    else if (nx, ny) ∈ visited then
      bfsExpand grid gridSize cur ds visited
    else if railOrStation grid gridSize nx ny = false then
      bfsExpand grid gridSize cur ds visited
    else
      let out := bfsExpand grid gridSize cur ds (insert (nx, ny) visited)
      (out.1, ⟨nx, ny, cur.path ++ [(nx, ny)]⟩ :: out.2)

/-- The BFS `while` loop, indexed by fuel.  Each iteration dequeues one
entry; `findPathOnRails` supplies fuel that is proved sufficient
(`bfsAux_fuel_stable`), so the fuel-out case is never the deciding one. -/
def bfsAux (grid : Grid) (gridSize : ℕ) (endX endY : ℤ) :
    ℕ → List BfsEntry → Finset (ℤ × ℤ) → Option (List (ℤ × ℤ))
  | 0, _, _ => none
  | _ + 1, [], _ => none
  | fuel + 1, current :: rest, visited =>
    if current.x = endX ∧ current.y = endY then some current.path
    else
      let out := bfsExpand grid gridSize current bfsDirections visited
      bfsAux grid gridSize endX endY fuel (rest ++ out.2) out.1

/-- Source `findPathOnRails` from `railSystem.ts`: BFS over the rail graph from
(startX, startY) to (endX, endY), visited set seeded with the start. -/
def findPathOnRails (grid : Grid) (gridSize : ℕ) (startX startY endX endY : ℤ) :
    Option (List (ℤ × ℤ)) :=
  bfsAux grid gridSize endX endY (gridSize * gridSize + 1)
    [⟨startX, startY, [(startX, startY)]⟩] {(startX, startY)}

/-- C10: a start-equals-end query returns the singleton path immediately:
the start entry is dequeued and matched against the goal before any rail
or bounds check, so the result is `some [(startX, startY)]` for every grid
and every coordinate, in or out of bounds, rail or not. -/
theorem findPathOnRails_self :
    ∀ (grid : Grid) (gridSize : ℕ) (startX startY : ℤ),
      findPathOnRails grid gridSize startX startY startX startY =
        some [(startX, startY)] := by
  intro grid gridSize startX startY
  simp [findPathOnRails, bfsAux]

/-- In-bounds predicate for a BFS cell (the source's
`nx < 0 || ny < 0 || nx >= gridSize || ny >= gridSize` check, negated). -/
def inBoundsCell (gridSize : ℕ) (c : ℤ × ℤ) : Prop :=
  0 ≤ c.1 ∧ 0 ≤ c.2 ∧ c.1 < gridSize ∧ c.2 < gridSize

instance (gridSize : ℕ) (c : ℤ × ℤ) : Decidable (inBoundsCell gridSize c) := by
  unfold inBoundsCell
  infer_instance

/-- One orthogonal step, in the BFS's exploration directions. -/
def adjStep (a b : ℤ × ℤ) : Prop :=
  ∃ d ∈ bfsDirections, b = (a.1 + d.1, a.2 + d.2)

instance (a b : ℤ × ℤ) : Decidable (adjStep a b) := by
  unfold adjStep
  infer_instance

/-- A walk the BFS considers valid: starts at `start`, each step moves to
an orthogonally adjacent cell, and every cell after the start is in
bounds and rail-or-station.  (The start cell itself is never checked,
exactly as in the source.) -/
def IsRailPath (grid : Grid) (gridSize : ℕ) (start : ℤ × ℤ) (p : List (ℤ × ℤ)) : Prop :=
  p.head? = some start ∧ p.Chain' adjStep ∧
    ∀ c ∈ p.tail, inBoundsCell gridSize c ∧ railOrStation grid gridSize c.1 c.2 = true

instance (grid : Grid) (gridSize : ℕ) (start : ℤ × ℤ) (p : List (ℤ × ℤ)) :
    Decidable (IsRailPath grid gridSize start p) := by
  unfold IsRailPath
  infer_instance

/-- The finite set of in-bounds cells, used to measure BFS termination. -/
def boundsFinset (gridSize : ℕ) : Finset (ℤ × ℤ) :=
  (Finset.range gridSize ×ˢ Finset.range gridSize).image
    (fun p => ((p.1 : ℤ), (p.2 : ℤ)))

theorem mem_boundsFinset {gridSize : ℕ} {c : ℤ × ℤ} :
    c ∈ boundsFinset gridSize ↔ inBoundsCell gridSize c := by
  obtain ⟨cx, cy⟩ := c
  simp only [boundsFinset, Finset.mem_image, Finset.mem_product, Finset.mem_range,
    inBoundsCell, Prod.mk.injEq, Prod.exists]
  constructor
  · rintro ⟨a, b, ⟨ha, hb⟩, rfl, rfl⟩
    exact ⟨Int.ofNat_nonneg a, Int.ofNat_nonneg b, by exact_mod_cast ha, by exact_mod_cast hb⟩
  · rintro ⟨hx0, hy0, hxn, hyn⟩
    refine ⟨cx.toNat, cy.toNat, ⟨?_, ?_⟩, ?_, ?_⟩
    · omega
    · omega
    · omega
    · omega

theorem boundsFinset_card_le (gridSize : ℕ) :
    (boundsFinset gridSize).card ≤ gridSize * gridSize := by
  calc (boundsFinset gridSize).card
      ≤ (Finset.range gridSize ×ˢ Finset.range gridSize).card := Finset.card_image_le
    _ = gridSize * gridSize := by simp [Finset.card_product]

/-- Membership in the visited set produced by the BFS inner loop: the old
visited set plus the cells of the pushed entries. -/
theorem bfsExpand_mem_visited (grid : Grid) (gridSize : ℕ) (cur : BfsEntry) :
    ∀ (ds : List (ℤ × ℤ)) (V : Finset (ℤ × ℤ)) (c : ℤ × ℤ),
      c ∈ (bfsExpand grid gridSize cur ds V).1 ↔
        c ∈ V ∨ ∃ p ∈ (bfsExpand grid gridSize cur ds V).2, p.cell = c := by
  intro ds
  induction ds with
  | nil => intro V c; simp [bfsExpand]
  | cons d ds ih =>
    intro V c
    simp only [bfsExpand]
    split_ifs with h1 h2 h3
    · simp [ih]
    · simp [ih]
    · simp [ih]
    · simp only [List.mem_cons, ih]
      constructor
      · rintro (hc | hc)
        · rcases Finset.mem_insert.mp hc with hc | hc
          · exact Or.inr ⟨_, Or.inl rfl, hc.symm⟩
          · exact Or.inl hc
        · obtain ⟨p, hp, hpc⟩ := hc
          exact Or.inr ⟨p, Or.inr hp, hpc⟩
      · rintro (hc | ⟨p, hp | hp, hpc⟩)
        · exact Or.inl (Finset.mem_insert_of_mem hc)
        · subst hp
          exact Or.inl (by rw [← hpc]; exact Finset.mem_insert_self _ _)
        · exact Or.inr ⟨p, hp, hpc⟩

theorem bfsExpand_visited_mono (grid : Grid) (gridSize : ℕ) (cur : BfsEntry)
    (ds : List (ℤ × ℤ)) (V : Finset (ℤ × ℤ)) :
    V ⊆ (bfsExpand grid gridSize cur ds V).1 := by
  intro c hc
  exact (bfsExpand_mem_visited grid gridSize cur ds V c).mpr (Or.inl hc)

/-- Every entry pushed by the BFS inner loop is a fresh, in-bounds,
rail-or-station neighbor of the expanded cell, and its path extends the
expanded entry's path by that cell. -/
theorem bfsExpand_pushed_spec (grid : Grid) (gridSize : ℕ) (cur : BfsEntry) :
    ∀ (ds : List (ℤ × ℤ)) (V : Finset (ℤ × ℤ)),
      ∀ p ∈ (bfsExpand grid gridSize cur ds V).2,
        p.cell ∉ V ∧ inBoundsCell gridSize p.cell ∧
          railOrStation grid gridSize p.cell.1 p.cell.2 = true ∧
          (∃ d ∈ ds, p.cell = (cur.x + d.1, cur.y + d.2)) ∧
          p.path = cur.path ++ [p.cell] := by
  intro ds
  induction ds with
  | nil => intro V p hp; simp [bfsExpand] at hp
  | cons d ds ih =>
    intro V p hp
    simp only [bfsExpand] at hp
    split_ifs at hp with h1 h2 h3
    · obtain ⟨h, hb, hr, ⟨d', hd', hc⟩, hpath⟩ := ih V p hp
      exact ⟨h, hb, hr, ⟨d', List.mem_cons_of_mem _ hd', hc⟩, hpath⟩
    · obtain ⟨h, hb, hr, ⟨d', hd', hc⟩, hpath⟩ := ih V p hp
      exact ⟨h, hb, hr, ⟨d', List.mem_cons_of_mem _ hd', hc⟩, hpath⟩
    · obtain ⟨h, hb, hr, ⟨d', hd', hc⟩, hpath⟩ := ih V p hp
      exact ⟨h, hb, hr, ⟨d', List.mem_cons_of_mem _ hd', hc⟩, hpath⟩
    · rcases List.mem_cons.mp hp with hp | hp
      · subst hp
        have hb : inBoundsCell gridSize (cur.x + d.1, cur.y + d.2) :=
          ⟨by omega, by omega, by omega, by omega⟩
        have hr : railOrStation grid gridSize (cur.x + d.1) (cur.y + d.2) = true := by
          simpa using h3
        exact ⟨h2, hb, hr, ⟨d, List.mem_cons_self _ _, rfl⟩, rfl⟩
      · obtain ⟨h, hb, hr, ⟨d', hd', hc⟩, hpath⟩ := ih _ p hp
        refine ⟨fun hmem => h (Finset.mem_insert_of_mem hmem), hb, hr,
          ⟨d', List.mem_cons_of_mem _ hd', hc⟩, hpath⟩

/-- The cells pushed by one expansion are pairwise distinct. -/
theorem bfsExpand_nodup (grid : Grid) (gridSize : ℕ) (cur : BfsEntry) :
    ∀ (ds : List (ℤ × ℤ)) (V : Finset (ℤ × ℤ)),
      ((bfsExpand grid gridSize cur ds V).2.map (fun p => p.cell)).Nodup := by
  intro ds
  induction ds with
  | nil => intro V; simp [bfsExpand]
  | cons d ds ih =>
    intro V
    simp only [bfsExpand]
    split_ifs with h1 h2 h3
    · exact ih V
    · exact ih V
    · exact ih V
    · simp only [List.map_cons, List.nodup_cons]
      refine ⟨?_, ih _⟩
      intro hmem
      obtain ⟨p, hp, hpc⟩ := List.mem_map.mp hmem
      have := (bfsExpand_pushed_spec grid gridSize cur ds _ p hp).1
      rw [hpc] at this
      exact this (Finset.mem_insert_self _ _)

/-- Every in-bounds rail-or-station neighbor of the expanded cell ends up
in the new visited set. -/
theorem bfsExpand_covers (grid : Grid) (gridSize : ℕ) (cur : BfsEntry) :
    ∀ (ds : List (ℤ × ℤ)) (V : Finset (ℤ × ℤ)), ∀ d ∈ ds,
      inBoundsCell gridSize (cur.x + d.1, cur.y + d.2) →
      railOrStation grid gridSize (cur.x + d.1) (cur.y + d.2) = true →
      (cur.x + d.1, cur.y + d.2) ∈ (bfsExpand grid gridSize cur ds V).1 := by
  intro ds
  induction ds with
  | nil => intro V d hd; simp at hd
  | cons d0 ds ih =>
    intro V d hd hb hr
    rcases List.mem_cons.mp hd with rfl | hd
    · simp only [bfsExpand]
      obtain ⟨hb1, hb2, hb3, hb4⟩ := hb
      split_ifs with h1 h2 h3
      · exact absurd h1 (by push_neg; exact ⟨hb1, hb2, hb3, hb4⟩)
      · exact bfsExpand_visited_mono grid gridSize cur ds V h2
      · exact absurd hr (by simp [h3])
      · exact bfsExpand_visited_mono grid gridSize cur ds _
          (Finset.mem_insert_self _ _)
    · simp only [bfsExpand]
      split_ifs with h1 h2 h3
      · exact ih V d hd hb hr
      · exact ih V d hd hb hr
      · exact ih V d hd hb hr
      · exact ih _ d hd hb hr

/-- One expansion trades pushed entries for removed unvisited cells
one-for-one: the BFS measure decreases by exactly the queue-pop. -/
theorem bfsExpand_measure (grid : Grid) (gridSize : ℕ) (cur : BfsEntry) :
    ∀ (ds : List (ℤ × ℤ)) (V : Finset (ℤ × ℤ)),
      (boundsFinset gridSize \ (bfsExpand grid gridSize cur ds V).1).card +
        (bfsExpand grid gridSize cur ds V).2.length =
      (boundsFinset gridSize \ V).card := by
  intro ds
  induction ds with
  | nil => intro V; simp [bfsExpand]
  | cons d ds ih =>
    intro V
    simp only [bfsExpand]
    split_ifs with h1 h2 h3
    · exact ih V
    · exact ih V
    · exact ih V
    · simp only [List.length_cons]
      have hmem : (cur.x + d.1, cur.y + d.2) ∈ boundsFinset gridSize \ V := by
        rw [Finset.mem_sdiff, mem_boundsFinset]
        exact ⟨⟨by omega, by omega, by omega, by omega⟩, h2⟩
      have hins : boundsFinset gridSize \ insert (cur.x + d.1, cur.y + d.2) V =
          (boundsFinset gridSize \ V).erase (cur.x + d.1, cur.y + d.2) := by
        ext c
        simp only [Finset.mem_sdiff, Finset.mem_insert, Finset.mem_erase]
        tauto
      have hcard : (boundsFinset gridSize \ insert (cur.x + d.1, cur.y + d.2) V).card =
          (boundsFinset gridSize \ V).card - 1 := by
        rw [hins, Finset.card_erase_of_mem hmem]
      have hpos : 1 ≤ (boundsFinset gridSize \ V).card :=
        Finset.card_pos.mpr ⟨_, hmem⟩
      have := ih (insert (cur.x + d.1, cur.y + d.2) V)
      omega

theorem railPath_ne_nil {grid : Grid} {gridSize : ℕ} {start : ℤ × ℤ} {p : List (ℤ × ℤ)}
    (hp : IsRailPath grid gridSize start p) : p ≠ [] := by
  intro h
  rw [h] at hp
  simpa using hp.1

theorem railPath_length_pos {grid : Grid} {gridSize : ℕ} {start : ℤ × ℤ} {p : List (ℤ × ℤ)}
    (hp : IsRailPath grid gridSize start p) : 1 ≤ p.length :=
  List.length_pos.mpr (railPath_ne_nil hp)

theorem railPath_singleton {grid : Grid} {gridSize : ℕ} {start u : ℤ × ℤ} {p : List (ℤ × ℤ)}
    (hp : IsRailPath grid gridSize start p) (hlen : p.length ≤ 1)
    (hlast : p.getLast? = some u) : u = start := by
  match p, hp, hlast with
  | [a], hp, hlast =>
    have h1 : a = start := by simpa using hp.1
    have h2 : a = u := by simpa using hlast
    rw [← h2, h1]

theorem railPath_snoc {grid : Grid} {gridSize : ℕ} {start w c : ℤ × ℤ} {p : List (ℤ × ℤ)}
    (hp : IsRailPath grid gridSize start p) (hlast : p.getLast? = some w)
    (hadj : adjStep w c) (hb : inBoundsCell gridSize c)
    (hr : railOrStation grid gridSize c.1 c.2 = true) :
    IsRailPath grid gridSize start (p ++ [c]) ∧ (p ++ [c]).getLast? = some c := by
  have hne : p ≠ [] := railPath_ne_nil hp
  refine ⟨⟨?_, ?_, ?_⟩, by simp⟩
  · rw [List.head?_append_of_ne_nil _ hne]
    exact hp.1
  · rw [List.chain'_append]
    refine ⟨hp.2.1, List.chain'_singleton _, ?_⟩
    intro x hx y hy
    rw [hlast] at hx
    simp only [Option.mem_def, Option.some.injEq] at hx
    simp only [List.head?_cons, Option.mem_def, Option.some.injEq] at hy
    rw [← hx, ← hy]
    exact hadj
  · rw [List.tail_append_singleton_of_ne_nil hne]
    intro x hx
    rcases List.mem_append.mp hx with hx | hx
    · exact hp.2.2 x hx
    · simp only [List.mem_singleton] at hx
      subst hx
      exact ⟨hb, hr⟩

theorem railPath_unsnoc {grid : Grid} {gridSize : ℕ} {start u : ℤ × ℤ} {q : List (ℤ × ℤ)}
    (hp : IsRailPath grid gridSize start q) (hlen : 2 ≤ q.length)
    (hlast : q.getLast? = some u) :
    ∃ (q₀ : List (ℤ × ℤ)) (w : ℤ × ℤ),
      q = q₀ ++ [u] ∧ IsRailPath grid gridSize start q₀ ∧ q₀.getLast? = some w ∧
      adjStep w u ∧ inBoundsCell gridSize u ∧
      railOrStation grid gridSize u.1 u.2 = true ∧ q₀.length + 1 = q.length := by
  have hq : q.dropLast ++ [u] = q := List.dropLast_append_getLast? u hlast
  set q₀ := q.dropLast with hq₀def
  have hq₀ne : q₀ ≠ [] := by
    intro h
    rw [h, List.nil_append] at hq
    rw [← hq] at hlen
    simp at hlen
  have hw : ∃ w, q₀.getLast? = some w := by
    have := List.getLast?_isSome.mpr hq₀ne
    exact Option.isSome_iff_exists.mp this
  obtain ⟨w, hw⟩ := hw
  have hchain : q.Chain' adjStep := hp.2.1
  rw [← hq] at hchain
  rw [List.chain'_append] at hchain
  have hutail : u ∈ q.tail := by
    rw [← hq, List.tail_append_singleton_of_ne_nil hq₀ne]
    simp
  obtain ⟨hub, hur⟩ := hp.2.2 u hutail
  refine ⟨q₀, w, hq.symm, ⟨?_, hchain.1, ?_⟩, hw, ?_, hub, hur, ?_⟩
  · have h1 := hp.1
    rw [← hq, List.head?_append_of_ne_nil _ hq₀ne] at h1
    exact h1
  · intro c hc
    refine hp.2.2 c ?_
    rw [← hq, List.tail_append_singleton_of_ne_nil hq₀ne]
    exact List.mem_append_left _ hc
  · refine hchain.2.2 w ?_ u ?_
    · rw [hw]; rfl
    · rfl
  · rw [← hq]
    simp

theorem sorted_of_all_eq {l : List ℕ} {c : ℕ} (h : ∀ x ∈ l, x = c) :
    l.Sorted (· ≤ ·) := by
  induction l with
  | nil => simp
  | cons a l ih =>
    rw [List.sorted_cons]
    refine ⟨?_, ih fun x hx => h x (List.mem_cons_of_mem _ hx)⟩
    intro b hb
    rw [h a (List.mem_cons_self _ _), h b (List.mem_cons_of_mem _ hb)]

/-- The BFS loop invariant relating the queue `Q` and the visited set `V`:
queue paths are valid shortest paths ending at their cells; queue path
lengths are sorted and span at most two consecutive values; every cell with
a valid path no longer than the head's is already visited; every visited
cell is either still queued or fully expanded; and the goal cell, once
visited, is still queued (otherwise the loop would have returned). -/
structure BfsInv (grid : Grid) (gridSize : ℕ) (start endC : ℤ × ℤ)
    (Q : List BfsEntry) (V : Finset (ℤ × ℤ)) : Prop where
  paths_valid : ∀ e ∈ Q, IsRailPath grid gridSize start e.path ∧
    e.path.getLast? = some e.cell
  cells_visited : ∀ e ∈ Q, e.cell ∈ V
  paths_shortest : ∀ e ∈ Q, ∀ q, IsRailPath grid gridSize start q →
    q.getLast? = some e.cell → e.path.length ≤ q.length
  lens_sorted : (Q.map (fun e => e.path.length)).Sorted (· ≤ ·)
  lens_bounded : ∀ e ∈ Q, ∀ h ∈ Q.head?, e.path.length ≤ h.path.length + 1
  seen : ∀ u q, IsRailPath grid gridSize start q → q.getLast? = some u →
    (∀ h ∈ Q.head?, q.length ≤ h.path.length) → u ∈ V
  expanded : ∀ u ∈ V, (∃ e ∈ Q, e.cell = u) ∨
    ∀ d ∈ bfsDirections, inBoundsCell gridSize (u.1 + d.1, u.2 + d.2) →
      railOrStation grid gridSize (u.1 + d.1) (u.2 + d.2) = true →
      (u.1 + d.1, u.2 + d.2) ∈ V
  endpoint : endC ∈ V → ∃ e ∈ Q, e.cell = endC

/-- Dequeuing a non-goal entry and expanding it preserves the BFS loop
invariant. -/
theorem bfsInv_step {grid : Grid} {gridSize : ℕ} {start endC : ℤ × ℤ}
    {e : BfsEntry} {rest : List BfsEntry} {V : Finset (ℤ × ℤ)}
    (hinv : BfsInv grid gridSize start endC (e :: rest) V)
    (hne : e.cell ≠ endC) :
    BfsInv grid gridSize start endC
      (rest ++ (bfsExpand grid gridSize e bfsDirections V).2)
      (bfsExpand grid gridSize e bfsDirections V).1 := by
  obtain ⟨hev, hevlast⟩ := hinv.paths_valid e (List.mem_cons_self _ _)
  have hL1 : 1 ≤ e.path.length := railPath_length_pos hev
  have hsorted : (∀ f ∈ rest, e.path.length ≤ f.path.length) ∧
      (rest.map (fun e => e.path.length)).Sorted (· ≤ ·) := by
    simpa using hinv.lens_sorted
  have hrestge : ∀ f ∈ rest, e.path.length ≤ f.path.length := hsorted.1
  have hrestle : ∀ f ∈ rest, f.path.length ≤ e.path.length + 1 := by
    intro f hf
    exact hinv.lens_bounded f (List.mem_cons_of_mem _ hf) e rfl
  have hPspec := bfsExpand_pushed_spec grid gridSize e bfsDirections V
  have hPlen : ∀ p ∈ (bfsExpand grid gridSize e bfsDirections V).2,
      p.path.length = e.path.length + 1 := by
    intro p hp
    rw [(hPspec p hp).2.2.2.2]
    simp
  have hPvalid : ∀ p ∈ (bfsExpand grid gridSize e bfsDirections V).2,
      IsRailPath grid gridSize start p.path ∧ p.path.getLast? = some p.cell := by
    intro p hp
    obtain ⟨hnv, hb, hr, ⟨d, hd, hc⟩, hpath⟩ := hPspec p hp
    have hadj : adjStep e.cell p.cell := ⟨d, hd, hc⟩
    rw [hpath]
    exact railPath_snoc hev hevlast hadj hb hr
  have hmemV' := bfsExpand_mem_visited grid gridSize e bfsDirections V
  have hVsub := bfsExpand_visited_mono grid gridSize e bfsDirections V
  have hcovers := bfsExpand_covers grid gridSize e bfsDirections V
  have hseenE : ∀ u q, IsRailPath grid gridSize start q → q.getLast? = some u →
      q.length ≤ e.path.length → u ∈ V := by
    intro u q hq hql hlen
    refine hinv.seen u q hq hql ?_
    intro h hh
    simp only [List.head?_cons, Option.mem_def, Option.some.injEq] at hh
    subst hh
    exact hlen
  have hPshort : ∀ p ∈ (bfsExpand grid gridSize e bfsDirections V).2,
      ∀ q, IsRailPath grid gridSize start q → q.getLast? = some p.cell →
        p.path.length ≤ q.length := by
    intro p hp q hq hql
    by_contra hlt
    push_neg at hlt
    rw [hPlen p hp] at hlt
    have : q.length ≤ e.path.length := by omega
    exact (hPspec p hp).1 (hseenE p.cell q hq hql this)
  refine ⟨?_, ?_, ?_, ?_, ?_, ?_, ?_, ?_⟩
  · -- paths_valid
    intro f hf
    rcases List.mem_append.mp hf with hf | hf
    · exact hinv.paths_valid f (List.mem_cons_of_mem _ hf)
    · exact hPvalid f hf
  · -- cells_visited
    intro f hf
    rcases List.mem_append.mp hf with hf | hf
    · exact hVsub (hinv.cells_visited f (List.mem_cons_of_mem _ hf))
    · exact (hmemV' _).mpr (Or.inr ⟨f, hf, rfl⟩)
  · -- paths_shortest
    intro f hf
    rcases List.mem_append.mp hf with hf | hf
    · exact hinv.paths_shortest f (List.mem_cons_of_mem _ hf)
    · exact hPshort f hf
  · -- lens_sorted
    rw [List.map_append]
    refine List.pairwise_append.mpr ⟨hsorted.2, ?_, ?_⟩
    · refine sorted_of_all_eq (c := e.path.length + 1) ?_
      intro x hx
      obtain ⟨p, hp, rfl⟩ := List.mem_map.mp hx
      exact hPlen p hp
    · intro a ha b hb
      obtain ⟨f, hf, rfl⟩ := List.mem_map.mp ha
      obtain ⟨p, hp, rfl⟩ := List.mem_map.mp hb
      rw [hPlen p hp]
      exact hrestle f hf
  · -- lens_bounded
    intro f hf h' hh'
    cases rest with
    | nil =>
      simp only [List.nil_append] at hf hh'
      have hh'mem : h' ∈ (bfsExpand grid gridSize e bfsDirections V).2 :=
        List.mem_of_mem_head? hh'
      rw [hPlen f hf, hPlen h' hh'mem]
      omega
    | cons r rest' =>
      have hh'r : h' = r := by
        simp only [List.cons_append, List.head?_cons, Option.mem_def,
          Option.some.injEq] at hh'
        exact hh'.symm
      subst hh'r
      have hrge : e.path.length ≤ h'.path.length :=
        hrestge h' (List.mem_cons_self _ _)
      rcases List.mem_append.mp hf with hf | hf
      · have := hrestle f hf
        omega
      · rw [hPlen f hf]
        omega
  · -- seen
    intro u q hq hql hhead
    by_cases hqL : q.length ≤ e.path.length
    · exact hVsub (hseenE u q hq hql hqL)
    · push_neg at hqL
      cases hrp : rest ++ (bfsExpand grid gridSize e bfsDirections V).2 with
      | nil =>
        obtain ⟨hrest, hP⟩ := List.append_eq_nil.mp hrp
        have hV'eqV : ∀ c, c ∈ (bfsExpand grid gridSize e bfsDirections V).1 ↔ c ∈ V := by
          intro c
          rw [hmemV' c, hP]
          simp
        have key : ∀ n, ∀ (q' : List (ℤ × ℤ)) (u' : ℤ × ℤ), q'.length ≤ n →
            IsRailPath grid gridSize start q' → q'.getLast? = some u' → u' ∈ V := by
          intro n
          induction n with
          | zero =>
            intro q' u' hn hq' _
            have := railPath_length_pos hq'
            omega
          | succ n ih =>
            intro q' u' hn hq' hql'
            by_cases hle : q'.length ≤ e.path.length
            · exact hseenE u' q' hq' hql' hle
            · push_neg at hle
              have h2 : 2 ≤ q'.length := by omega
              obtain ⟨q₀, w, rfl, hq₀, hq₀last, hadj, hub, hur, hlen01⟩ :=
                railPath_unsnoc hq' h2 hql'
              have hwV : w ∈ V := ih q₀ w (by omega) hq₀ hq₀last
              obtain ⟨d, hd, hu'⟩ := hadj
              rcases hinv.expanded w hwV with ⟨f, hf, hfc⟩ | hexp
              · have hfe : f = e := by
                  rw [hrest] at hf
                  simpa using hf
                subst hfe
                subst hu'
                rw [← hfc] at hub hur ⊢
                exact (hV'eqV _).mp (hcovers d hd hub hur)
              · subst hu'
                exact hexp d hd hub hur
        exact hVsub (key q.length q u le_rfl hq hql)
      | cons h0 tl =>
        have hh0 : q.length ≤ h0.path.length := by
          refine hhead h0 ?_
          rw [hrp]
          rfl
        have hh0mem : h0 ∈ rest ++ (bfsExpand grid gridSize e bfsDirections V).2 := by
          rw [hrp]
          exact List.mem_cons_self _ _
        have hh0le : h0.path.length ≤ e.path.length + 1 := by
          rcases List.mem_append.mp hh0mem with hh | hh
          · exact hrestle h0 hh
          · rw [hPlen h0 hh]
        have hqlen : q.length = e.path.length + 1 := by omega
        have h2 : 2 ≤ q.length := by omega
        obtain ⟨q₀, w, rfl, hq₀, hq₀last, hadj, hub, hur, hlen01⟩ :=
          railPath_unsnoc hq h2 hql
        have hq₀len : q₀.length ≤ e.path.length := by
          rw [List.length_append] at hqlen
          simp at hqlen
          omega
        have hwV : w ∈ V := hseenE w q₀ hq₀ hq₀last hq₀len
        obtain ⟨d, hd, hu⟩ := hadj
        rcases hinv.expanded w hwV with ⟨f, hf, hfc⟩ | hexp
        · rcases List.mem_cons.mp hf with hfe | hfr
          · subst hfe
            subst hu
            rw [← hfc] at hub hur ⊢
            exact hcovers d hd hub hur
          · -- f still queued in rest: contradicts the head length bound
            exfalso
            cases rest with
            | nil => simp at hfr
            | cons r rest' =>
              have hh0r : h0 = r := by
                simp only [List.cons_append, List.cons.injEq] at hrp
                exact hrp.1.symm
              subst hh0r
              have hs : (∀ a ∈ rest', h0.path.length ≤ a.path.length) ∧
                  (rest'.map (fun e => e.path.length)).Sorted (· ≤ ·) := by
                simpa using hsorted.2
              have hrf : h0.path.length ≤ f.path.length := by
                rcases List.mem_cons.mp hfr with hfr | hfr
                · subst hfr; exact le_rfl
                · exact hs.1 _ hfr
              have hfshort : f.path.length ≤ q₀.length := by
                refine hinv.paths_shortest f (List.mem_cons_of_mem _ hfr) q₀ hq₀ ?_
                rw [hq₀last, hfc]
              omega
        · subst hu
          exact hVsub (hexp d hd hub hur)
  · -- expanded
    intro u hu
    rcases (hmemV' u).mp hu with hu | ⟨p, hp, hpc⟩
    · rcases hinv.expanded u hu with ⟨f, hf, hfc⟩ | hexp
      · rcases List.mem_cons.mp hf with hfe | hfr
        · subst hfe
          right
          intro d hd hb hr
          rw [← hfc] at hb hr ⊢
          exact hcovers d hd hb hr
        · exact Or.inl ⟨f, List.mem_append_left _ hfr, hfc⟩
      · right
        intro d hd hb hr
        exact hVsub (hexp d hd hb hr)
    · exact Or.inl ⟨p, List.mem_append_right _ hp, hpc⟩
  · -- endpoint
    intro hEnd
    rcases (hmemV' endC).mp hEnd with hEnd | ⟨p, hp, hpc⟩
    · obtain ⟨f, hf, hfc⟩ := hinv.endpoint hEnd
      rcases List.mem_cons.mp hf with hfe | hfr
      · subst hfe
        exact absurd hfc hne
      · exact ⟨f, List.mem_append_left _ hfr, hfc⟩
    · exact ⟨p, List.mem_append_right _ hp, hpc⟩

/-- If the BFS returns a path, it is a valid rail path from the start to
the goal of minimal length (given the loop invariant). -/
theorem bfsAux_some_spec {grid : Grid} {gridSize : ℕ} {start endC : ℤ × ℤ} :
    ∀ (fuel : ℕ) (Q : List BfsEntry) (V : Finset (ℤ × ℤ)),
      BfsInv grid gridSize start endC Q V →
      ∀ p, bfsAux grid gridSize endC.1 endC.2 fuel Q V = some p →
        IsRailPath grid gridSize start p ∧ p.getLast? = some endC ∧
        ∀ q, IsRailPath grid gridSize start q → q.getLast? = some endC →
          p.length ≤ q.length := by
  intro fuel
  induction fuel with
  | zero =>
    intro Q V _ p hres
    simp [bfsAux] at hres
  | succ fuel ih =>
    intro Q V hinv p hres
    cases Q with
    | nil => simp [bfsAux] at hres
    | cons e rest =>
      by_cases hc : e.x = endC.1 ∧ e.y = endC.2
      · have hcell : e.cell = endC := by
          obtain ⟨h1, h2⟩ := hc
          unfold BfsEntry.cell
          rw [h1, h2]
        simp only [bfsAux, if_pos hc] at hres
        obtain ⟨hp, hplast⟩ := hinv.paths_valid e (List.mem_cons_self _ _)
        obtain rfl : e.path = p := by simpa using hres
        refine ⟨hp, by rw [hplast, hcell], ?_⟩
        intro q hq hql
        exact hinv.paths_shortest e (List.mem_cons_self _ _) q hq (by rw [hql, hcell])
      · have hcell : e.cell ≠ endC := by
          intro h
          exact hc ⟨congrArg Prod.fst h, congrArg Prod.snd h⟩
        simp only [bfsAux, if_neg hc] at hres
        exact ih _ _ (bfsInv_step hinv hcell) p hres

/-- With an empty queue the invariant forces the goal to be unreachable. -/
theorem bfsInv_nil_unreachable {grid : Grid} {gridSize : ℕ} {start endC : ℤ × ℤ}
    {V : Finset (ℤ × ℤ)} (hinv : BfsInv grid gridSize start endC [] V) :
    ¬ ∃ q, IsRailPath grid gridSize start q ∧ q.getLast? = some endC := by
  rintro ⟨q, hq, hql⟩
  have hV : endC ∈ V := hinv.seen endC q hq hql (by simp)
  obtain ⟨e, he, _⟩ := hinv.endpoint hV
  simp at he

/-- If the BFS (with sufficient fuel) returns `none`, no valid rail path
reaches the goal. -/
theorem bfsAux_none_spec {grid : Grid} {gridSize : ℕ} {start endC : ℤ × ℤ} :
    ∀ (fuel : ℕ) (Q : List BfsEntry) (V : Finset (ℤ × ℤ)),
      BfsInv grid gridSize start endC Q V →
      Q.length + (boundsFinset gridSize \ V).card ≤ fuel →
      bfsAux grid gridSize endC.1 endC.2 fuel Q V = none →
      ¬ ∃ q, IsRailPath grid gridSize start q ∧ q.getLast? = some endC := by
  intro fuel
  induction fuel with
  | zero =>
    intro Q V hinv hfuel _
    have hQ : Q = [] := by
      cases Q with
      | nil => rfl
      | cons e rest => simp at hfuel
    subst hQ
    exact bfsInv_nil_unreachable hinv
  | succ fuel ih =>
    intro Q V hinv hfuel hres
    cases Q with
    | nil => exact bfsInv_nil_unreachable hinv
    | cons e rest =>
      by_cases hc : e.x = endC.1 ∧ e.y = endC.2
      · simp [bfsAux, if_pos hc] at hres
      · have hcell : e.cell ≠ endC := by
          intro h
          exact hc ⟨congrArg Prod.fst h, congrArg Prod.snd h⟩
        simp only [bfsAux, if_neg hc] at hres
        have hmeas := bfsExpand_measure grid gridSize e bfsDirections V
        have hlen : (rest ++ (bfsExpand grid gridSize e bfsDirections V).2).length +
            (boundsFinset gridSize \ (bfsExpand grid gridSize e bfsDirections V).1).card ≤
            fuel := by
          rw [List.length_append]
          simp only [List.length_cons] at hfuel
          omega
        exact ih _ _ (bfsInv_step hinv hcell) hlen hres

/-- The invariant holds for the initial queue and visited set. -/
theorem bfsInv_init (grid : Grid) (gridSize : ℕ) (start endC : ℤ × ℤ) :
    BfsInv grid gridSize start endC [⟨start.1, start.2, [start]⟩] {start} := by
  have hcell : (⟨start.1, start.2, [start]⟩ : BfsEntry).cell = start := rfl
  have hpath : IsRailPath grid gridSize start [start] := by
    refine ⟨rfl, List.chain'_singleton _, ?_⟩
    intro c hc
    simp at hc
  refine ⟨?_, ?_, ?_, ?_, ?_, ?_, ?_, ?_⟩
  · intro f hf
    simp only [List.mem_singleton] at hf
    subst hf
    exact ⟨hpath, rfl⟩
  · intro f hf
    simp only [List.mem_singleton] at hf
    subst hf
    simp [hcell]
  · intro f hf q hq _
    simp only [List.mem_singleton] at hf
    subst hf
    exact railPath_length_pos hq
  · simp
  · intro f hf h hh
    simp only [List.mem_singleton] at hf
    subst hf
    simp only [List.head?_cons, Option.mem_def, Option.some.injEq] at hh
    subst hh
    omega
  · intro u q hq hql hhead
    have hlen : q.length ≤ 1 := by
      have := hhead ⟨start.1, start.2, [start]⟩ rfl
      simpa using this
    have := railPath_singleton hq hlen hql
    subst this
    simp
  · intro u hu
    left
    refine ⟨⟨start.1, start.2, [start]⟩, List.mem_singleton_self _, ?_⟩
    rw [hcell]
    exact (Finset.mem_singleton.mp hu).symm
  · intro hEnd
    refine ⟨⟨start.1, start.2, [start]⟩, List.mem_singleton_self _, ?_⟩
    rw [hcell]
    simpa using (Finset.mem_singleton.mp hEnd).symm

/-- The initial measure fits in the fuel `gridSize * gridSize + 1` that
`findPathOnRails` supplies, so the fuel never decides the outcome. -/
theorem initial_measure_le (gridSize : ℕ) (start : ℤ × ℤ) :
    ([⟨start.1, start.2, [start]⟩] : List BfsEntry).length +
      (boundsFinset gridSize \ {start}).card ≤ gridSize * gridSize + 1 := by
  have h1 : (boundsFinset gridSize \ {start}).card ≤ (boundsFinset gridSize).card :=
    Finset.card_le_card (Finset.sdiff_subset)
  have h2 := boundsFinset_card_le gridSize
  simp only [List.length_singleton]
  omega

/-- The 5x5 grid whose only rail is the straight line x = 0, y = 0..4. -/
def lineGrid : Grid :=
  [ [railTile, grassTile, grassTile, grassTile, grassTile],
    [railTile, grassTile, grassTile, grassTile, grassTile],
    [railTile, grassTile, grassTile, grassTile, grassTile],
    [railTile, grassTile, grassTile, grassTile, grassTile],
    [railTile, grassTile, grassTile, grassTile, grassTile] ]

/-- C2: for every grid and in-bounds endpoints, `findPathOnRails` returns
`none` exactly when no rail-or-station walk reaches the goal, and any
returned path starts at the start cell, ends at the end cell, steps only
between orthogonally adjacent rail-or-station cells (after the start),
and has minimal hop count; moreover, with the fixed neighbor order
north, east, south, west, the grid whose only rail is the straight line
(0,0)..(0,4) yields exactly the path [(0,0),(0,1),(0,2),(0,3),(0,4)]. -/
theorem findPathOnRails_correct :
    (∀ (grid : Grid) (gridSize : ℕ) (startX startY endX endY : ℤ),
      inBoundsCell gridSize (startX, startY) →
      inBoundsCell gridSize (endX, endY) →
      (findPathOnRails grid gridSize startX startY endX endY = none →
        ¬ ∃ q, IsRailPath grid gridSize (startX, startY) q ∧
            q.getLast? = some (endX, endY)) ∧
      (∀ p, findPathOnRails grid gridSize startX startY endX endY = some p →
        p.head? = some (startX, startY) ∧ p.getLast? = some (endX, endY) ∧
        IsRailPath grid gridSize (startX, startY) p ∧
        ∀ q, IsRailPath grid gridSize (startX, startY) q →
          q.getLast? = some (endX, endY) → p.length ≤ q.length)) ∧
    findPathOnRails lineGrid 5 0 0 0 4 =
      some [(0, 0), (0, 1), (0, 2), (0, 3), (0, 4)] := by
  constructor
  · intro grid gridSize startX startY endX endY _ _
    have hinv := bfsInv_init grid gridSize (startX, startY) (endX, endY)
    constructor
    · intro hres
      exact bfsAux_none_spec (gridSize * gridSize + 1) _ _ hinv
        (initial_measure_le gridSize (startX, startY)) hres
    · intro p hres
      obtain ⟨hp, hlast, hmin⟩ :=
        bfsAux_some_spec (gridSize * gridSize + 1) _ _ hinv p hres
      exact ⟨hp.1, hlast, hp, hmin⟩
  · decide

/-- Witness for the pathfinder theorem: on the concrete line grid the
endpoints are in bounds, the returned path is the expected one, and its
length 5 is minimal among valid rail paths to (0,4). -/
theorem findPathOnRails_correct_witness :
    findPathOnRails lineGrid 5 0 0 0 4 =
      some [(0, 0), (0, 1), (0, 2), (0, 3), (0, 4)] ∧
    ∀ q, IsRailPath lineGrid 5 (0, 0) q → q.getLast? = some (0, 4) →
      5 ≤ q.length := by
  refine ⟨findPathOnRails_correct.2, ?_⟩
  intro q hq hql
  have h := (findPathOnRails_correct.1 lineGrid 5 0 0 0 4 (by decide) (by decide)).2
    [(0, 0), (0, 1), (0, 2), (0, 3), (0, 4)] findPathOnRails_correct.2
  exact h.2.2.2 q hq hql

/-- Travel directions of mobile agents. -/
inductive CarDirection where
  | north
  | east
  | south
  | west
deriving DecidableEq, Repr

/-- Source `OPPOSITE_DIRECTION` from `constants.ts`. -/
def oppositeDirection : CarDirection → CarDirection
  | .north => .south
  | .east => .west
  | .south => .north
  | .west => .east

/-- The grid step of `DIRECTION_META[direction].step` from `constants.ts`:
north = (-1,0), east = (0,-1), south = (1,0), west = (0,1). -/
def directionStep : CarDirection → ℤ × ℤ
  | .north => (-1, 0)
  | .east => (0, -1)
  | .south => (1, 0)
  | .west => (0, 1)

/-- Source `getRailDirectionOptions` from `railSystem.ts`: the list of directions
whose neighbor carries rail, pushed in the fixed order north, east,
south, west. -/
def getRailDirectionOptions (grid : Grid) (gridSize : ℕ) (x y : ℤ) : List CarDirection :=
  (if hasRailAtPosition grid gridSize (x - 1) y then [CarDirection.north] else []) ++
    (if hasRailAtPosition grid gridSize x (y - 1) then [CarDirection.east] else []) ++
    (if hasRailAtPosition grid gridSize (x + 1) y then [CarDirection.south] else []) ++
    (if hasRailAtPosition grid gridSize x (y + 1) then [CarDirection.west] else [])

/-- Source `pickNextDirection` from the train system: never reverse unless it is
the only option; go straight when possible; curves take the single
remaining turn; a terminus always reverses. -/
def pickNextDirection (previousDirection : CarDirection) (grid : Grid) (gridSize : ℕ)
    (x y : ℤ) : Option CarDirection :=
  let options := getRailDirectionOptions grid gridSize x y
  if options.length = 0 then none
  else
    let connections := getAdjacentRail grid gridSize x y
    let trackType := getTrackType connections
    let incoming := oppositeDirection previousDirection
    let filtered := options.filter (fun dir => decide (dir ≠ incoming))
    if filtered.length = 0 then some incoming
    else
      match trackType with
      | .straight_ns | .straight_ew =>
        if previousDirection ∈ filtered then some previousDirection
        else some (filtered.headD incoming)
      | .curve_ne | .curve_nw | .curve_se | .curve_sw =>
        some (filtered.headD incoming)
      | .junction_t_n | .junction_t_e | .junction_t_s | .junction_t_w =>
        if previousDirection ∈ filtered then some previousDirection
        else some (filtered.headD incoming)
      | .junction_cross =>
        if previousDirection ∈ filtered then some previousDirection
        else some (filtered.headD incoming)
      | .terminus_n | .terminus_e | .terminus_s | .terminus_w =>
        some incoming
      | .single =>
        some (filtered.headD incoming)

/-- Source `getDirectionToTile` from the train system. -/
def getDirectionToTile (fromX fromY toX toY : ℤ) : Option CarDirection :=
  let dx := toX - fromX
  let dy := toY - fromY
  if dx = -1 ∧ dy = 0 then some .north
  else if dx = 1 ∧ dy = 0 then some .south
  else if dx = 0 ∧ dy = -1 then some .east
  else if dx = 0 ∧ dy = 1 then some .west
  else none

/-- Carriage kinds. -/
inductive CarriageType where
  | locomotive
  | passenger
  | freight_box
  | freight_tank
  | freight_flat
  | caboose
deriving DecidableEq, Repr

/-- Train kinds. -/
inductive TrainType where
  | passenger
  | freight
deriving DecidableEq, Repr

/-- A carriage's rendered state, recomputed every tick. -/
structure TrainCarriage where
  type : CarriageType
  color : String
  tileX : ℤ
  tileY : ℤ
  progress : ℚ
  direction : CarDirection
deriving DecidableEq, Repr

/-- A train: lead state plus carriages and bounded path history. -/
structure Train where
  id : ℕ
  type : TrainType
  carriages : List TrainCarriage
  tileX : ℤ
  tileY : ℤ
  direction : CarDirection
  progress : ℚ
  speed : ℚ
  path : List (ℤ × ℤ)
  pathIndex : ℤ
  age : ℚ
  maxAge : ℚ
  color : String
  atStation : Bool
  stationWaitTimer : ℚ
deriving DecidableEq, Repr

/-- Source `CARRIAGE_SPACING = 0.28` tile-progress units between carriages. -/
def CARRIAGE_SPACING : ℚ := 28 / 100

/-- Source `STATION_STOP_DURATION = 2.0` seconds of dwell. -/
def STATION_STOP_DURATION : ℚ := 2

/-- Source `MIN_RAIL_TILES_FOR_TRAINS = 10`. -/
def MIN_RAIL_TILES_FOR_TRAINS : ℕ := 10

/-- The backward walk of `updateCarriagePositions`: while the carriage's
progress deficit is negative and history remains (`pathIdx > 0`),
step one history tile back, add 1 to the progress, and adopt that tile
(and the direction toward the following history tile).  The source's
`pathIdx` is the `idx` argument; it decreases by exactly one per
iteration, so the recursion is on it. -/
def walkBack (path : List (ℤ × ℤ)) :
    ℕ → ℚ → ℤ → ℤ → CarDirection → Bool → ℚ × ℤ × ℤ × CarDirection × Bool
  | 0, prog, tx, ty, dir, found => (prog, tx, ty, dir, found)
  | idx + 1, prog, tx, ty, dir, found =>
    if prog < 0 then
      let prog2 := prog + 1
      if idx < path.length then
        let prevTile := path.getD idx (0, 0)
        let dir2 :=
          if idx + 1 < path.length then
            let nextTile := path.getD (idx + 1) (0, 0)
            match getDirectionToTile prevTile.1 prevTile.2 nextTile.1 nextTile.2 with
            | some d => d
            | none => dir
          else dir
        walkBack path idx prog2 prevTile.1 prevTile.2 dir2 true
      else
        walkBack path idx prog2 tx ty dir found
    else (prog, tx, ty, dir, found)

/-- The per-carriage body of `updateCarriagePositions`: the locomotive
(index 0) mirrors the lead state; others walk back through history, fall
back to the spawn tile when history is exhausted, and clamp progress to
[0, 0.99]. -/
def computeCarriage (train : Train) (spawnTile : ℤ × ℤ) (i : ℕ)
    (carriage : TrainCarriage) : TrainCarriage :=
  if i = 0 then
    { carriage with
        tileX := train.tileX
        tileY := train.tileY
        progress := train.progress
        direction := train.direction }
  else
    let targetProgress := train.progress - (i : ℚ) * CARRIAGE_SPACING
    let r := walkBack train.path train.pathIndex.toNat targetProgress
      train.tileX train.tileY train.direction false
    let prog := r.1
    let tx := r.2.1
    let ty := r.2.2.1
    let dir := r.2.2.2.1
    let found := r.2.2.2.2
    let tx2 := if found = false ∧ prog < 0 then spawnTile.1 else tx
    let ty2 := if found = false ∧ prog < 0 then spawnTile.2 else ty
    let progFixed := if found = false ∧ prog < 0 then 0 else prog
    let progClamped := max 0 (min (99 / 100 : ℚ) progFixed)
    { carriage with
        tileX := tx2
        tileY := ty2
        progress := progClamped
        direction := dir }

/-- Source `updateCarriagePositions` from the train system (its `grid` and
`gridSize` parameters are unused in the source body as well). -/
def updateCarriagePositions (train : Train) (grid : Grid) (gridSize : ℕ) : Train :=
  let spawnTile := train.path.getD 0 (0, 0)
  { train with
    carriages := train.carriages.enum.map
      (fun p => computeCarriage train spawnTile p.1 p.2) }

/-- One successful tile move of the `updateTrain` while-loop: enter the
new tile, subtract 1 from progress, possibly enter station dwell
(passenger trains only), re-pick the heading, append to path history and
trim it to 80 entries. -/
def moveStep (grid : Grid) (gridSize : ℕ) (train : Train)
    (newTileX newTileY : ℤ) : Train :=
  let t1 := { train with
    tileX := newTileX
    tileY := newTileY
    progress := train.progress - 1 }
  let t2 :=
    if isRailStationTile grid gridSize newTileX newTileY = true ∧
        t1.type = TrainType.passenger then
      { t1 with atStation := true, stationWaitTimer := STATION_STOP_DURATION }
    else t1
  let t3 :=
    match pickNextDirection t2.direction grid gridSize t2.tileX t2.tileY with
    | some nextDir => { t2 with direction := nextDir }
    | none => t2
  let t4 := { t3 with
    path := t3.path ++ [(newTileX, newTileY)]
    pathIndex := t3.pathIndex + 1 }
  if 80 < t4.path.length then
    { t4 with path := t4.path.tail, pathIndex := t4.pathIndex - 1 }
  else t4

/-- The `while (train.progress >= 1)` loop of `updateTrain`, fuel-indexed.
`updateTrain` passes fuel `⌊progress⌋.toNat + 1`, which `moveLoop_stable`
proves sufficient: each non-breaking iteration lowers the progress by
exactly 1. -/
def moveLoop (grid : Grid) (gridSize : ℕ) : ℕ → Train → Train
  | 0, train => train
  | fuel + 1, train =>
    if 1 ≤ train.progress then
      let step := directionStep train.direction
      let newTileX := train.tileX + step.1
      let newTileY := train.tileY + step.2
      if isRailTile grid gridSize newTileX newTileY = false ∧
          isRailStationTile grid gridSize newTileX newTileY = false then
        match pickNextDirection train.direction grid gridSize train.tileX train.tileY with
        | none =>
          { train with
            direction := oppositeDirection train.direction
            progress := 1 / 2 }
        | some altDir =>
          { train with direction := altDir, progress := 1 / 10 }
      else
        moveLoop grid gridSize fuel (moveStep grid gridSize train newTileX newTileY)
    else train

/-- Source `updateTrain` from the train system: age the train, handle station
dwell, drop the train when its tile stopped being rail, advance progress,
run the tile-crossing loop, and recompute carriage positions.  Returns
the source's boolean (false = remove) together with the updated train. -/
def updateTrain (train : Train) (delta speedMultiplier : ℚ) (grid : Grid)
    (gridSize : ℕ) : Bool × Train :=
  let t0 := { train with age := train.age + delta * speedMultiplier }
  if t0.maxAge < t0.age then (false, t0)
  else if t0.atStation = true then
    let timer := t0.stationWaitTimer - delta * speedMultiplier
    let t1 :=
      if timer ≤ 0 then { t0 with stationWaitTimer := timer, atStation := false }
      else { t0 with stationWaitTimer := timer }
    (true, t1)
  else if isRailTile grid gridSize t0.tileX t0.tileY = false ∧
      isRailStationTile grid gridSize t0.tileX t0.tileY = false then
    (false, t0)
  else
    let t1 := { t0 with progress := t0.progress + t0.speed * delta * speedMultiplier }
    let t2 := moveLoop grid gridSize (⌊t1.progress⌋.toNat + 1) t1
    let t3 := updateCarriagePositions t2 grid gridSize
    (true, t3)

theorem moveStep_progress (grid : Grid) (gridSize : ℕ) (train : Train)
    (newTileX newTileY : ℤ) :
    (moveStep grid gridSize train newTileX newTileY).progress =
      train.progress - 1 := by
  unfold moveStep
  dsimp only
  split <;> rename_i h1
  all_goals cases hpick : pickNextDirection train.direction grid gridSize newTileX newTileY
  all_goals simp only [hpick]
  all_goals split <;> rfl

theorem floor_toNat_pred {p : ℚ} (hp : 1 ≤ p) :
    ⌊p - 1⌋.toNat = ⌊p⌋.toNat - 1 := by
  have h1 : ⌊p - (1 : ℤ)⌋ = ⌊p⌋ - 1 := Int.floor_sub_int p 1
  have h2 : ⌊p - 1⌋ = ⌊p⌋ - 1 := by
    rw [← h1]
    norm_num
  have h3 : (1 : ℤ) ≤ ⌊p⌋ := by
    rw [Int.le_floor]
    exact_mod_cast hp
  omega

/-- The fuel `⌊progress⌋.toNat + 1` passed by `updateTrain` is enough to
run the while-loop to completion: adding further fuel never changes the
result, because each non-breaking iteration lowers progress by exactly 1. -/
theorem moveLoop_stable (grid : Grid) (gridSize : ℕ) :
    ∀ (f₁ f₂ : ℕ) (train : Train), ⌊train.progress⌋.toNat < f₁ → f₁ ≤ f₂ →
      moveLoop grid gridSize f₁ train = moveLoop grid gridSize f₂ train := by
  intro f₁
  induction f₁ with
  | zero => intro f₂ train h; omega
  | succ f₁ ih =>
    intro f₂ train hfloor hle
    cases f₂ with
    | zero => omega
    | succ f₂ =>
      simp only [moveLoop]
      by_cases hp : 1 ≤ train.progress
      · rw [if_pos hp, if_pos hp]
        split
        · rfl
        · apply ih
          · rw [moveStep_progress, floor_toNat_pred hp]
            have h3 : (1 : ℤ) ≤ ⌊train.progress⌋ := by
              rw [Int.le_floor]
              exact_mod_cast hp
            omega
          · omega
      · rw [if_neg hp, if_neg hp]

/-- Loop invariant: a nonnegative progress with sufficient fuel ends in
[0, 1) — every break branch writes 0.5 or 0.1 and the loop only exits
normally once progress has dropped below 1. -/
theorem moveLoop_progress_bounds (grid : Grid) (gridSize : ℕ) :
    ∀ (fuel : ℕ) (train : Train), 0 ≤ train.progress →
      ⌊train.progress⌋.toNat < fuel →
      0 ≤ (moveLoop grid gridSize fuel train).progress ∧
        (moveLoop grid gridSize fuel train).progress < 1 := by
  intro fuel
  induction fuel with
  | zero => intro train _ h; omega
  | succ fuel ih =>
    intro train h0 hfloor
    simp only [moveLoop]
    by_cases hp : 1 ≤ train.progress
    · rw [if_pos hp]
      split
      · split
        · constructor <;> norm_num
        · constructor <;> norm_num
      · apply ih
        · rw [moveStep_progress]
          linarith
        · rw [moveStep_progress, floor_toNat_pred hp]
          have h3 : (1 : ℤ) ≤ ⌊train.progress⌋ := by
            rw [Int.le_floor]
            exact_mod_cast hp
          omega
    · rw [if_neg hp]
      push_neg at hp
      exact ⟨h0, hp⟩

theorem updateCarriagePositions_progress (train : Train) (grid : Grid) (gridSize : ℕ) :
    (updateCarriagePositions train grid gridSize).progress = train.progress := rfl

/-- C6: for a train whose lead progress is in [0,1), with nonnegative
delta, speed multiplier and speed, a surviving `updateTrain` call leaves
the lead progress in [0,1) again: the station-dwell branch keeps it
unchanged, both no-valid-next-tile branches write 0.5 or 0.1, and the
tile-crossing loop exits only below 1 while never going negative. -/
theorem updateTrain_progress_bounds
    (train : Train) (delta speedMultiplier : ℚ) (grid : Grid) (gridSize : ℕ)
    (hp0 : 0 ≤ train.progress) (hp1 : train.progress < 1)
    (hd : 0 ≤ delta) (hm : 0 ≤ speedMultiplier) (hs : 0 ≤ train.speed)
    (t : Train)
    (h : updateTrain train delta speedMultiplier grid gridSize = (true, t)) :
    0 ≤ t.progress ∧ t.progress < 1 := by
  unfold updateTrain at h
  dsimp only at h
  rw [Prod.mk.injEq] at h
  split_ifs at h with h1 h2 h3
  · exact absurd h.1 (by simp)
  · -- station-dwell branch (timer reached zero)
    obtain ⟨-, ht⟩ := h
    subst ht
    exact ⟨hp0, hp1⟩
  · -- station-dwell branch (timer still running)
    obtain ⟨-, ht⟩ := h
    subst ht
    exact ⟨hp0, hp1⟩
  · exact absurd h.1 (by simp)
  · -- movement branch
    obtain ⟨-, ht⟩ := h
    subst ht
    rw [updateCarriagePositions_progress]
    apply moveLoop_progress_bounds
    · have : 0 ≤ train.speed * delta * speedMultiplier := by positivity
      dsimp only
      linarith
    · dsimp only
      omega

/-- A 2x2 grid whose only rail is the two tiles (0,0) and (1,0): tile
(0,0) classifies as `terminus_n` and tile (1,0) as `terminus_s`. -/
def demoGrid : Grid :=
  [ [railTile, railTile],
    [grassTile, grassTile] ]

/-- A concrete southbound two-carriage freight train on `demoGrid`. -/
def demoTrainMoving : Train :=
  { id := 1, type := TrainType.freight,
    carriages := [⟨CarriageType.locomotive, "#1e40af", 0, 0, 0, CarDirection.south⟩,
      ⟨CarriageType.caboose, "#8B0000", 0, 0, -28/100, CarDirection.south⟩],
    tileX := 0, tileY := 0, direction := CarDirection.south,
    progress := 9/10, speed := 1/4, path := [(0, 0)], pathIndex := 0,
    age := 0, maxAge := 60, color := "#1e40af", atStation := false,
    stationWaitTimer := 0 }

/-- Witness for the progress-bounds theorem at a concrete moving train. -/
theorem updateTrain_progress_bounds_witness :
    0 ≤ (updateTrain demoTrainMoving 1 1 demoGrid 2).2.progress ∧
      (updateTrain demoTrainMoving 1 1 demoGrid 2).2.progress < 1 :=
  updateTrain_progress_bounds demoTrainMoving 1 1 demoGrid 2 (by norm_num [demoTrainMoving])
    (by norm_num [demoTrainMoving]) (by norm_num) (by norm_num)
    (by norm_num [demoTrainMoving]) ((updateTrain demoTrainMoving 1 1 demoGrid 2).2)
    (by with_unfolding_all decide)

/-- C9: a station-dwell tick is frame-pure except for the timers: when the
at-station flag is set and the incremented age stays within `maxAge`,
`updateTrain` returns true, decrements the dwell timer by
`delta * speedMultiplier` (clearing the flag exactly when the new timer is
not positive), and leaves position, heading, lead progress, path history
and all carriages untouched. -/
theorem updateTrain_station_dwell
    (train : Train) (delta speedMultiplier : ℚ) (grid : Grid) (gridSize : ℕ)
    (hst : train.atStation = true)
    (hage : train.age + delta * speedMultiplier ≤ train.maxAge) :
    (updateTrain train delta speedMultiplier grid gridSize).1 = true ∧
    (updateTrain train delta speedMultiplier grid gridSize).2.stationWaitTimer =
      train.stationWaitTimer - delta * speedMultiplier ∧
    ((updateTrain train delta speedMultiplier grid gridSize).2.atStation = true ↔
      0 < train.stationWaitTimer - delta * speedMultiplier) ∧
    (updateTrain train delta speedMultiplier grid gridSize).2.tileX = train.tileX ∧
    (updateTrain train delta speedMultiplier grid gridSize).2.tileY = train.tileY ∧
    (updateTrain train delta speedMultiplier grid gridSize).2.direction = train.direction ∧
    (updateTrain train delta speedMultiplier grid gridSize).2.progress = train.progress ∧
    (updateTrain train delta speedMultiplier grid gridSize).2.path = train.path ∧
    (updateTrain train delta speedMultiplier grid gridSize).2.pathIndex = train.pathIndex ∧
    (updateTrain train delta speedMultiplier grid gridSize).2.carriages = train.carriages := by
  unfold updateTrain
  dsimp only
  rw [if_neg (not_lt.mpr hage), if_pos hst]
  split_ifs with ht
  · refine ⟨rfl, rfl, ?_, rfl, rfl, rfl, rfl, rfl, rfl, rfl⟩
    constructor
    · intro hcontra
      simp at hcontra
    · intro hpos
      linarith
  · refine ⟨rfl, rfl, ?_, rfl, rfl, rfl, rfl, rfl, rfl, rfl⟩
    push_neg at ht
    simp only [hst, true_iff]
    exact ht

/-- Witness for the station-dwell theorem at a concrete dwelling train. -/
theorem updateTrain_station_dwell_witness :
    (updateTrain
      { id := 1, type := TrainType.passenger,
        carriages := [⟨CarriageType.locomotive, "#1e40af", 0, 0, 0, CarDirection.south⟩],
        tileX := 0, tileY := 0, direction := CarDirection.south,
        progress := 9/10, speed := 1/4, path := [(0, 0)], pathIndex := 0,
        age := 0, maxAge := 60, color := "#1e40af", atStation := true,
        stationWaitTimer := 3/2 }
      1 1 [[railTile, railTile], [grassTile, grassTile]] 2).1 = true ∧
    (updateTrain
      { id := 1, type := TrainType.passenger,
        carriages := [⟨CarriageType.locomotive, "#1e40af", 0, 0, 0, CarDirection.south⟩],
        tileX := 0, tileY := 0, direction := CarDirection.south,
        progress := 9/10, speed := 1/4, path := [(0, 0)], pathIndex := 0,
        age := 0, maxAge := 60, color := "#1e40af", atStation := true,
        stationWaitTimer := 3/2 }
      1 1 [[railTile, railTile], [grassTile, grassTile]] 2).2.stationWaitTimer = 1/2 := by
  have h := updateTrain_station_dwell
    { id := 1, type := TrainType.passenger,
      carriages := [⟨CarriageType.locomotive, "#1e40af", 0, 0, 0, CarDirection.south⟩],
      tileX := 0, tileY := 0, direction := CarDirection.south,
      progress := 9/10, speed := 1/4, path := [(0, 0)], pathIndex := 0,
      age := 0, maxAge := 60, color := "#1e40af", atStation := true,
      stationWaitTimer := 3/2 }
    1 1 [[railTile, railTile], [grassTile, grassTile]] 2 rfl (by norm_num)
  refine ⟨h.1, ?_⟩
  rw [h.2.1]
  norm_num

/-- On a tile with exactly one rail connection (a terminus), the heading
picker always returns the reverse of the incoming heading: either the
single option is the reverse itself (filtered list empty), or the
terminus branch of the track-type switch returns the reverse. -/
theorem pickNextDirection_single_connection
    (grid : Grid) (gridSize : ℕ) (x y : ℤ) (prev d : CarDirection)
    (hopts : getRailDirectionOptions grid gridSize x y = [d]) :
    pickNextDirection prev grid gridSize x y = some (oppositeDirection prev) := by
  cases h1 : hasRailAtPosition grid gridSize (x - 1) y <;>
    cases h2 : hasRailAtPosition grid gridSize x (y - 1) <;>
      cases h3 : hasRailAtPosition grid gridSize (x + 1) y <;>
        cases h4 : hasRailAtPosition grid gridSize x (y + 1) <;>
          simp only [getRailDirectionOptions, h1, h2, h3, h4, if_true, if_false,
            List.nil_append, List.append_nil, List.cons_append, List.nil_append] at hopts
  · exact absurd hopts (by simp)
  · -- only west
    cases prev <;>
      simp [pickNextDirection, getRailDirectionOptions, getAdjacentRail, getTrackType,
        h1, h2, h3, h4, oppositeDirection]
  · -- only south
    cases prev <;>
      simp [pickNextDirection, getRailDirectionOptions, getAdjacentRail, getTrackType,
        h1, h2, h3, h4, oppositeDirection]
  · exact absurd hopts (by simp)
  · -- only east
    cases prev <;>
      simp [pickNextDirection, getRailDirectionOptions, getAdjacentRail, getTrackType,
        h1, h2, h3, h4, oppositeDirection]
  · exact absurd hopts (by simp)
  · exact absurd hopts (by simp)
  · exact absurd hopts (by simp)
  · -- only north
    cases prev <;>
      simp [pickNextDirection, getRailDirectionOptions, getAdjacentRail, getTrackType,
        h1, h2, h3, h4, oppositeDirection]
  · exact absurd hopts (by simp)
  · exact absurd hopts (by simp)
  · exact absurd hopts (by simp)
  · exact absurd hopts (by simp)
  · exact absurd hopts (by simp)
  · exact absurd hopts (by simp)
  · exact absurd hopts (by simp)

/-- When the next tile in the heading is not rail-or-station and the
heading picker yields an alternative, the while-loop body rewrites the
heading to it, sets progress to 0.1, and breaks (independently of the
remaining fuel). -/
theorem moveLoop_invalid_next (grid : Grid) (gridSize : ℕ) (t : Train)
    (fuel : ℕ) (dir : CarDirection) (hp : 1 ≤ t.progress)
    (hnext : isRailTile grid gridSize (t.tileX + (directionStep t.direction).1)
        (t.tileY + (directionStep t.direction).2) = false ∧
      isRailStationTile grid gridSize (t.tileX + (directionStep t.direction).1)
        (t.tileY + (directionStep t.direction).2) = false)
    (hpick : pickNextDirection t.direction grid gridSize t.tileX t.tileY = some dir) :
    moveLoop grid gridSize (fuel + 1) t =
      { t with direction := dir, progress := 1 / 10 } := by
  simp only [moveLoop, if_pos hp, if_pos hnext, hpick]

theorem updateCarriagePositions_direction (train : Train) (grid : Grid) (gridSize : ℕ) :
    (updateCarriagePositions train grid gridSize).direction = train.direction := rfl

theorem updateCarriagePositions_tileX (train : Train) (grid : Grid) (gridSize : ℕ) :
    (updateCarriagePositions train grid gridSize).tileX = train.tileX := rfl

theorem updateCarriagePositions_tileY (train : Train) (grid : Grid) (gridSize : ℕ) :
    (updateCarriagePositions train grid gridSize).tileY = train.tileY := rfl

/-- The concrete terminus scenario: `demoTrainMoving` turned to head north
into the dead end of the `terminus_n` tile (0,0) of `demoGrid`. -/
def demoTrainDeadend : Train :=
  { demoTrainMoving with direction := CarDirection.north }

/-- C3 counterexample: on a terminus tile ((0,0) of `demoGrid` classifies
as `terminus_n`, its single rail connection pointing south) with the
heading pointing off the rail and the tick crossing the tile boundary,
`updateTrain` keeps the train and reverses the heading, but sets the lead
progress to 0.1 — not to 0.5 as the claim states (the 0.5 bounce happens
only when the tile has no rail neighbor at all). -/
theorem terminus_bounce_counterexample :
    getTrackType (getAdjacentRail demoGrid 2 0 0) = TrackType.terminus_n ∧
    isRailTile demoGrid 2 (-1) 0 = false ∧
    isRailStationTile demoGrid 2 (-1) 0 = false ∧
    1 ≤ demoTrainDeadend.progress + demoTrainDeadend.speed * 1 * 1 ∧
    (updateTrain demoTrainDeadend 1 1 demoGrid 2).1 = true ∧
    (updateTrain demoTrainDeadend 1 1 demoGrid 2).2.direction =
      oppositeDirection demoTrainDeadend.direction ∧
    (updateTrain demoTrainDeadend 1 1 demoGrid 2).2.progress = 1 / 10 ∧
    ¬ (updateTrain demoTrainDeadend 1 1 demoGrid 2).2.progress = 1 / 2 := by
  with_unfolding_all decide

/-- C3 (amended): a train whose tile has exactly one rail connection (a
terminus) and whose heading points off the rail is not removed when it
crosses the tile boundary: the heading picker returns the reverse
direction, so `updateTrain` reverses the heading and sets the lead
progress to 0.1 (not 0.5), keeps the tile, and returns true. -/
theorem updateTrain_terminus_reverses
    (train : Train) (delta speedMultiplier : ℚ) (grid : Grid) (gridSize : ℕ)
    (d : CarDirection)
    (hst : train.atStation = false)
    (hage : train.age + delta * speedMultiplier ≤ train.maxAge)
    (hvalid : isRailTile grid gridSize train.tileX train.tileY = true ∨
      isRailStationTile grid gridSize train.tileX train.tileY = true)
    (hnext : isRailTile grid gridSize (train.tileX + (directionStep train.direction).1)
        (train.tileY + (directionStep train.direction).2) = false ∧
      isRailStationTile grid gridSize (train.tileX + (directionStep train.direction).1)
        (train.tileY + (directionStep train.direction).2) = false)
    (hopts : getRailDirectionOptions grid gridSize train.tileX train.tileY = [d])
    (hp1 : 1 ≤ train.progress + train.speed * delta * speedMultiplier) :
    (updateTrain train delta speedMultiplier grid gridSize).1 = true ∧
    (updateTrain train delta speedMultiplier grid gridSize).2.direction =
      oppositeDirection train.direction ∧
    (updateTrain train delta speedMultiplier grid gridSize).2.progress = 1 / 10 ∧
    (updateTrain train delta speedMultiplier grid gridSize).2.tileX = train.tileX ∧
    (updateTrain train delta speedMultiplier grid gridSize).2.tileY = train.tileY := by
  have hpick := pickNextDirection_single_connection grid gridSize train.tileX train.tileY
    train.direction d hopts
  unfold updateTrain
  dsimp only
  rw [if_neg (not_lt.mpr hage), if_neg (by rw [hst]; simp),
    if_neg (by rcases hvalid with hv | hv <;> rw [hv] <;> simp)]
  rw [moveLoop_invalid_next grid gridSize
    { train with
        age := train.age + delta * speedMultiplier
        progress := train.progress + train.speed * delta * speedMultiplier }
    (⌊train.progress + train.speed * delta * speedMultiplier⌋.toNat)
    (oppositeDirection train.direction) hp1 hnext hpick]
  exact ⟨rfl, rfl, rfl, rfl, rfl⟩

/-- Witness for the amended terminus theorem at the concrete dead-end
train of `demoGrid`. -/
theorem updateTrain_terminus_reverses_witness :
    (updateTrain demoTrainDeadend 1 1 demoGrid 2).2.direction =
      oppositeDirection demoTrainDeadend.direction ∧
    (updateTrain demoTrainDeadend 1 1 demoGrid 2).2.progress = 1 / 10 := by
  have h := updateTrain_terminus_reverses demoTrainDeadend 1 1 demoGrid 2
    CarDirection.south rfl (by with_unfolding_all decide)
    (Or.inl (by with_unfolding_all decide)) (by with_unfolding_all decide)
    (by with_unfolding_all decide) (by with_unfolding_all decide)
  exact ⟨h.2.1, h.2.2.1⟩

/-- Default carriage used only as the `headD` fallback in statements. -/
def defaultCarriage : TrainCarriage :=
  ⟨CarriageType.locomotive, "", 0, 0, 0, CarDirection.north⟩

/-- Source `demoTrainMoving` with its lead progress pushed to 0.995 — still a
legal lead progress (inside [0,1)), but above the carriage clamp 0.99. -/
def demoTrainOver : Train :=
  { demoTrainMoving with progress := 199 / 200 }

/-- C5 counterexample: for a 2-carriage train with lead progress 0.995,
the carriage-follow step stores progress 0.995 > 0.99 on the locomotive at
index 0, because the locomotive mirrors the lead progress without the
[0, 0.99] clamp applied to trailing carriages. -/
theorem carriage_progress_counterexample :
    2 ≤ demoTrainOver.carriages.length ∧ demoTrainOver.carriages.length ≤ 10 ∧
    0 ≤ demoTrainOver.progress ∧ demoTrainOver.progress < 1 ∧
    ∃ c ∈ (updateCarriagePositions demoTrainOver demoGrid 2).carriages,
      ¬ (c.progress ≤ 99 / 100) := by
  with_unfolding_all decide

/-- C5 (amended): after the carriage-follow step of a train with 2 to 10
carriages, every trailing carriage (index ≥ 1) has progress clamped into
[0, 0.99]; the locomotive at index 0 instead mirrors the lead progress
exactly, so it obeys the bound only when the lead progress does. -/
theorem updateCarriagePositions_follower_bounds
    (train : Train) (grid : Grid) (gridSize : ℕ)
    (hc2 : 2 ≤ train.carriages.length) (hc10 : train.carriages.length ≤ 10) :
    (∀ c ∈ (updateCarriagePositions train grid gridSize).carriages.tail,
      0 ≤ c.progress ∧ c.progress ≤ 99 / 100) ∧
    ((updateCarriagePositions train grid gridSize).carriages.headD
      defaultCarriage).progress = train.progress := by
  rcases hc : train.carriages with - | ⟨c0, cs⟩
  · rw [hc] at hc2
    simp at hc2
  · constructor
    · intro c hcmem
      simp only [updateCarriagePositions, hc, List.enum_cons, List.map_cons,
        List.tail_cons] at hcmem
      obtain ⟨⟨i, ci⟩, hpmem, hfc⟩ := List.mem_map.mp hcmem
      have hi : 1 ≤ i := by
        rw [List.mk_mem_enumFrom_iff_le_and_getElem?_sub] at hpmem
        exact hpmem.1
      rw [← hfc]
      simp only [computeCarriage, if_neg (by omega : ¬ i = 0)]
      constructor
      · exact le_max_left 0 _
      · exact max_le (by norm_num) (min_le_left _ _)
    · simp only [updateCarriagePositions, hc, List.enum_cons, List.map_cons,
        List.headD_cons]
      simp [computeCarriage]

/-- Witness for the carriage-follow bounds at the concrete two-carriage
train: the trailing carriage lands in [0, 0.99] and the locomotive
mirrors the lead progress 0.9. -/
theorem updateCarriagePositions_follower_bounds_witness :
    (∀ c ∈ (updateCarriagePositions demoTrainMoving demoGrid 2).carriages.tail,
      0 ≤ c.progress ∧ c.progress ≤ 99 / 100) ∧
    ((updateCarriagePositions demoTrainMoving demoGrid 2).carriages.headD
      defaultCarriage).progress = demoTrainMoving.progress :=
  updateCarriagePositions_follower_bounds demoTrainMoving demoGrid 2
    (by with_unfolding_all decide) (by with_unfolding_all decide)

/-- Source `LOCOMOTIVE_COLORS` from `railSystem.ts`. -/
def LOCOMOTIVE_COLORS : List String :=
  ["#1e40af", "#dc2626", "#059669", "#7c3aed", "#ea580c", "#0891b2"]

/-- Source `FREIGHT_COLORS` from `railSystem.ts`. -/
def FREIGHT_COLORS : List String :=
  ["#8B4513", "#696969", "#2F4F4F", "#8B0000", "#006400", "#4682B4"]

/-- Source `PASSENGER_COLORS` from `railSystem.ts`. -/
def PASSENGER_COLORS : List String :=
  ["#C0C0C0", "#1e40af", "#059669", "#7c3aed"]

/-- Source `findRailStations`: all (x, y) with a `rail_station` origin tile,
scanned row-major exactly like the source loops. -/
def findRailStations (grid : Grid) (gridSize : ℕ) : List (ℤ × ℤ) :=
  (List.range gridSize).flatMap fun y =>
    (List.range gridSize).filterMap fun x =>
      if (tileAt grid x y).building.type = BuildingType.rail_station then
        some ((x : ℤ), (y : ℤ))
      else none

/-- Source `countRailTiles`: pure rail tiles plus road tiles with rail overlay. -/
def countRailTiles (grid : Grid) (gridSize : ℕ) : ℕ :=
  ((List.range gridSize).flatMap fun y =>
    (List.range gridSize).filter fun x =>
      let tile := tileAt grid x y
      decide (tile.building.type = BuildingType.rail ∨
        (tile.building.type = BuildingType.road ∧ tile.hasRailOverlay = true))).length

/-- One `spawnTrain` attempt's random draws: each field stands for one
`Math.random()` call site of the source; list-index draws are reduced
modulo the list length where they are used. -/
structure SpawnRng where
  stationRoll : ℚ
  stationIdx : ℕ
  diagDirIdx : ℕ
  railIdx : ℕ
  dirIdx : ℕ
  typeRoll : ℚ
  countRoll : ℕ
  locoColorIdx : ℕ
  bodyColorIdx : ℕ
  freightTypeIdx : ℕ → ℕ
  freightColorIdx : ℕ → ℕ
  speedRoll : ℚ
  maxAgeRoll : ℚ

/-- Source `findAdjacentRailToStation`: first orthogonal rail neighbor (with the
away-from-station heading), else the first diagonal/skip-2 rail tile that
offers at least one direction option (picked by the rng). -/
def findAdjacentRailToStation (grid : Grid) (gridSize : ℕ)
    (stationX stationY : ℤ) (rng : SpawnRng) : Option (ℤ × ℤ × CarDirection) :=
  let orth : List (ℤ × ℤ × CarDirection) :=
    [(-1, 0, CarDirection.south), (0, -1, CarDirection.west),
      (1, 0, CarDirection.north), (0, 1, CarDirection.east)]
  match orth.find? (fun p => isRailTile grid gridSize (stationX + p.1) (stationY + p.2.1)) with
  | some p => some (stationX + p.1, stationY + p.2.1, p.2.2)
  | none =>
    let diagonals : List (ℤ × ℤ) :=
      [(-1, -1), (-1, 1), (1, -1), (1, 1), (2, 0), (0, 2), (-2, 0), (0, -2)]
    match diagonals.find? (fun p =>
        isRailTile grid gridSize (stationX + p.1) (stationY + p.2) &&
          decide (0 < (getRailDirectionOptions grid gridSize (stationX + p.1)
            (stationY + p.2)).length)) with
    | some p =>
      let options := getRailDirectionOptions grid gridSize (stationX + p.1) (stationY + p.2)
      some (stationX + p.1, stationY + p.2,
        options.getD (rng.diagDirIdx % options.length) CarDirection.north)
    | none => none

/-- Source `findRandomRailTile`: rail tiles with at least two direction options,
falling back to all rail tiles, one picked uniformly by the rng. -/
def findRandomRailTile (grid : Grid) (gridSize : ℕ) (rng : SpawnRng) :
    Option (ℤ × ℤ) :=
  let preferred : List (ℤ × ℤ) :=
    (List.range gridSize).flatMap fun y =>
      (List.range gridSize).filterMap fun x =>
        if isRailTile grid gridSize x y = true ∧
            2 ≤ (getRailDirectionOptions grid gridSize x y).length then
          some ((x : ℤ), (y : ℤ))
        else none
  let railTiles :=
    if preferred.length = 0 then
      (List.range gridSize).flatMap fun y =>
        (List.range gridSize).filterMap fun x =>
          if isRailTile grid gridSize x y = true then some ((x : ℤ), (y : ℤ))
          else none
    else preferred
  if railTiles.length = 0 then none
  else some (railTiles.getD (rng.railIdx % railTiles.length) (0, 0))

/-- Source `createPassengerTrain`: 5-8 carriages, locomotive then passenger cars
then a caboose in the locomotive color; carriages staggered by
`-i * CARRIAGE_SPACING`. -/
def createPassengerTrain (rng : SpawnRng) (id : ℕ) (tileX tileY : ℤ)
    (direction : CarDirection) : Train :=
  let numCarriages := 5 + rng.countRoll % 4
  let locomotiveColor := LOCOMOTIVE_COLORS.getD
    (rng.locoColorIdx % LOCOMOTIVE_COLORS.length) ""
  let passengerColor := PASSENGER_COLORS.getD
    (rng.bodyColorIdx % PASSENGER_COLORS.length) ""
  let body := (List.range' 1 (numCarriages - 2)).map fun i =>
    (⟨CarriageType.passenger, passengerColor, tileX, tileY,
      -(i : ℚ) * CARRIAGE_SPACING, direction⟩ : TrainCarriage)
  let tail :=
    if 1 < numCarriages then
      [(⟨CarriageType.caboose, locomotiveColor, tileX, tileY,
        -((numCarriages : ℚ) - 1) * CARRIAGE_SPACING, direction⟩ : TrainCarriage)]
    else []
  { id := id, type := TrainType.passenger,
    carriages := ⟨CarriageType.locomotive, locomotiveColor, tileX, tileY, 0,
      direction⟩ :: body ++ tail,
    tileX := tileX, tileY := tileY, direction := direction, progress := 0,
    speed := 1 / 4 + rng.speedRoll * (1 / 10),
    path := [(tileX, tileY)], pathIndex := 0, age := 0,
    maxAge := 60 + rng.maxAgeRoll * 30, color := locomotiveColor,
    atStation := false, stationWaitTimer := 0 }

/-- Source `createFreightTrain`: 6-10 carriages, independently random freight-car
kinds and colors, dark-red caboose. -/
def createFreightTrain (rng : SpawnRng) (id : ℕ) (tileX tileY : ℤ)
    (direction : CarDirection) : Train :=
  let numCarriages := 6 + rng.countRoll % 5
  let locomotiveColor := LOCOMOTIVE_COLORS.getD
    (rng.locoColorIdx % LOCOMOTIVE_COLORS.length) ""
  let freightTypes : List CarriageType :=
    [CarriageType.freight_box, CarriageType.freight_tank, CarriageType.freight_flat]
  let body := (List.range' 1 (numCarriages - 2)).map fun i =>
    (⟨freightTypes.getD (rng.freightTypeIdx i % freightTypes.length)
        CarriageType.freight_box,
      FREIGHT_COLORS.getD (rng.freightColorIdx i % FREIGHT_COLORS.length) "",
      tileX, tileY, -(i : ℚ) * CARRIAGE_SPACING, direction⟩ : TrainCarriage)
  let tail :=
    if 1 < numCarriages then
      [(⟨CarriageType.caboose, "#8B0000", tileX, tileY,
        -((numCarriages : ℚ) - 1) * CARRIAGE_SPACING, direction⟩ : TrainCarriage)]
    else []
  { id := id, type := TrainType.freight,
    carriages := ⟨CarriageType.locomotive, locomotiveColor, tileX, tileY, 0,
      direction⟩ :: body ++ tail,
    tileX := tileX, tileY := tileY, direction := direction, progress := 0,
    speed := 18 / 100 + rng.speedRoll * (8 / 100),
    path := [(tileX, tileY)], pathIndex := 0, age := 0,
    maxAge := 60 + rng.maxAgeRoll * 40, color := locomotiveColor,
    atStation := false, stationWaitTimer := 0 }

/-- Source `spawnTrain`: refuse when the network has fewer than
`MIN_RAIL_TILES_FOR_TRAINS` rail tiles; otherwise spawn next to a random
station (probability 0.7, no fallback on failure) or on a random rail
tile, then build a 50/50 passenger or freight train. -/
def spawnTrain (grid : Grid) (gridSize : ℕ) (trainId : ℕ) (rng : SpawnRng) :
    Option Train :=
  let railTileCount := countRailTiles grid gridSize
  if railTileCount < MIN_RAIL_TILES_FOR_TRAINS then none
  else
    let stations := findRailStations grid gridSize
    let spawnSpot : Option (ℤ × ℤ × CarDirection) :=
      if 0 < stations.length ∧ rng.stationRoll < 7 / 10 then
        let station := stations.getD (rng.stationIdx % stations.length) (0, 0)
        findAdjacentRailToStation grid gridSize station.1 station.2 rng
      else
        match findRandomRailTile grid gridSize rng with
        | none => none
        | some railT =>
          let options := getRailDirectionOptions grid gridSize railT.1 railT.2
          if options.length = 0 then none
          else some (railT.1, railT.2,
            options.getD (rng.dirIdx % options.length) CarDirection.north)
    match spawnSpot with
    | none => none
    | some (sx, sy, dir) =>
      if rng.typeRoll < 1 / 2 then some (createPassengerTrain rng trainId sx sy dir)
      else some (createFreightTrain rng trainId sx sy dir)

/-- C7: `spawnTrain` returns `none` whenever the grid holds fewer than 10
rail tiles (pure rail or road with rail overlay); in particular it always
returns `none` on a grid with zero rail tiles, for every rng and id. -/
theorem spawnTrain_below_min_rails
    (grid : Grid) (gridSize : ℕ) (trainId : ℕ) (rng : SpawnRng) :
    (countRailTiles grid gridSize < MIN_RAIL_TILES_FOR_TRAINS →
      spawnTrain grid gridSize trainId rng = none) ∧
    (countRailTiles grid gridSize = 0 →
      spawnTrain grid gridSize trainId rng = none) := by
  constructor
  · intro hcount
    unfold spawnTrain
    rw [if_pos hcount]
  · intro hzero
    unfold spawnTrain
    rw [if_pos (by rw [hzero]; norm_num [MIN_RAIL_TILES_FOR_TRAINS])]

/-- A fixed rng assignment used by concrete spawn evaluations. -/
def demoSpawnRng : SpawnRng :=
  { stationRoll := 0, stationIdx := 0, diagDirIdx := 0, railIdx := 0,
    dirIdx := 0, typeRoll := 0, countRoll := 0, locoColorIdx := 0,
    bodyColorIdx := 0, freightTypeIdx := fun _ => 0,
    freightColorIdx := fun _ => 0, speedRoll := 0, maxAgeRoll := 0 }

/-- Witness: a 4x4 all-grass grid has zero rail tiles, so both parts of
the spawn-refusal theorem apply and `spawnTrain` returns `none`. -/
theorem spawnTrain_below_min_rails_witness :
    spawnTrain
      [ [grassTile, grassTile, grassTile, grassTile],
        [grassTile, grassTile, grassTile, grassTile],
        [grassTile, grassTile, grassTile, grassTile],
        [grassTile, grassTile, grassTile, grassTile] ] 4 0 demoSpawnRng = none :=
  (spawnTrain_below_min_rails _ 4 0 demoSpawnRng).2 (by decide)

end IsoCity
